import Mathlib

/-!
Verification of the tab-switcher browser extension: a shallow embedding of
the background worker's MRU (most-recently-used) tab ordering, the bounded
screenshot cache, and the foreground switcher controller together with its
modifier-key state machine, plus proofs of the specified properties.

The background logic is embedded from the service-worker source
(sortTabsByMRU, the tabs.onActivated MRU update, setScreenshot /
pruneScreenshotCache / getScreenshot, toggleTabSwitcher), the foreground
logic from the content script (the toggleSwitcher message branch,
getFilteredTabs, handleGlobalKeyup, closeSelectedTab, the modifier-key
listeners and the window blur listener).

JS numbers that hold tab ids and timestamps are modelled as Int; JS arrays
as lists; a JS Map as an insertion-ordered association list whose keys are
unique (the Map invariant), with last-write-wins construction where a Map
is built from a possibly-duplicated entry array.
-/

open List

namespace TabSwitcher

/-- A browser tab as supplied by the host on each query: an integer id plus
optional title and url (absent fields behave as falsy in the JS source). -/
structure Tab where
  id : Int
  title : Option String := none
  url : Option String := none
  deriving Repr, DecidableEq

/-! ## MRU tracker (background worker) -/

/-- The MRU update performed by the `chrome.tabs.onActivated` listener:
remove the activated id if present, push it to the front, and truncate to
100 entries. -/
def recordActivation (mru : List Int) (tabId : Int) : List Int :=
  let removed := mru.filter (fun id => id != tabId)
  let fronted := tabId :: removed
  if fronted.length > 100 then fronted.take 100 else fronted

/-- A sequence of activations, applied left to right. -/
def recordActivations (mru : List Int) (acts : List Int) : List Int :=
  acts.foldl recordActivation mru

/-- Lookup in the JS `Map` built from the entry array
`tabs.map (tab => [tab.id, tab])`: later entries overwrite earlier ones,
so lookup returns the last entry with the given key. -/
def tabMapGet (tabs : List Tab) (tabId : Int) : Option Tab :=
  tabs.reverse.find? (fun t => t.id == tabId)

/-- One iteration of the first loop of `sortTabsByMRU`: when the MRU id is
live, push the tab onto `sortedTabs` (`.1`) and the id onto `addedIds`
(`.2`). -/
def sortStep (tabs : List Tab) (acc : List Tab × List Int) (tabId : Int) :
    List Tab × List Int :=
  match tabMapGet tabs tabId with
  | some t => (acc.1 ++ [t], acc.2 ++ [tabId])
  | none => acc

/-- Function `sortTabsByMRU` from the background worker: first pass over the MRU
order pushing each live matching tab (recording its id in `addedIds`),
second pass appending the remaining tabs in host order. -/
def sortTabsByMRU (mruTabOrder : List Int) (tabs : List Tab) : List Tab :=
  let res := mruTabOrder.foldl (sortStep tabs) (([], []) : List Tab × List Int)
  res.1 ++ tabs.filter (fun tab => !(res.2.contains tab.id))

/-! ## Screenshot cache (background worker) -/

/-- One cache entry: `{ dataUrl, timestamp, url }`. -/
structure CacheEntry where
  dataUrl : String
  timestamp : Int
  url : Option String := none
  deriving Repr, DecidableEq

/-- The screenshot cache, a JS `Map<tabId, CacheEntry>` modelled as an
insertion-ordered association list. -/
abbrev ScreenshotCache := List (Int × CacheEntry)

/-- The `Map` invariant: every key appears at most once. -/
def nodupKeys (c : ScreenshotCache) : Prop := (c.map Prod.fst).Nodup

/-- JS `Map.set`: overwrite in place when the key is present (JS Maps keep the
original insertion position), append otherwise. -/
def mapSet (c : ScreenshotCache) (k : Int) (v : CacheEntry) : ScreenshotCache :=
  if c.any (fun p => p.1 == k) then
    c.map (fun p => if p.1 == k then (k, v) else p)
  else c ++ [(k, v)]

/-- JS `Map.delete`: drop the entry with the given key. -/
def mapDelete (c : ScreenshotCache) (k : Int) : ScreenshotCache :=
  c.filter (fun p => p.1 != k)

/-- Stable insertion used to model `entries.sort((a, b) => aTs - bTs)`:
an element is placed before the first strictly larger timestamp, after
equal ones, matching the stable JS sort. -/
def insertByTs (e : Int × CacheEntry) : ScreenshotCache → ScreenshotCache
  | [] => [e]
  | f :: rest =>
    if e.2.timestamp ≤ f.2.timestamp then e :: f :: rest
    else f :: insertByTs e rest

/-- Stable sort of the cache entries by ascending timestamp. -/
def sortByTs : ScreenshotCache → ScreenshotCache
  | [] => []
  | e :: rest => insertByTs e (sortByTs rest)

def MAX_SCREENSHOT_CACHE_ITEMS : Nat := 25

/-- The `while (size > MAX && entries.length)` loop of
`pruneScreenshotCache`: shift the oldest-timestamped entry off the sorted
array and delete its key, while the cache is over the cap. -/
def pruneLoop (cache : ScreenshotCache) : ScreenshotCache → ScreenshotCache
  | [] => cache
  | oldest :: rest =>
    if cache.length > MAX_SCREENSHOT_CACHE_ITEMS then
      pruneLoop (mapDelete cache oldest.1) rest
    else cache

/-- Function `pruneScreenshotCache`: return unchanged when within the cap, otherwise
delete globally oldest entries until the cap is met. -/
def pruneScreenshotCache (cache : ScreenshotCache) : ScreenshotCache :=
  if cache.length ≤ MAX_SCREENSHOT_CACHE_ITEMS then cache
  else pruneLoop cache (sortByTs cache)

/-- Function `setScreenshot`: insert/overwrite the entry with a fresh timestamp
(`Date.now()` is the explicit `now` parameter) and prune. -/
def setScreenshot (cache : ScreenshotCache) (tabId : Int) (dataUrl : String)
    (url : Option String) (now : Int) : ScreenshotCache :=
  pruneScreenshotCache (mapSet cache tabId ⟨dataUrl, now, url⟩)

/-- One `put` operation: key, image data, source url, capture time. -/
structure PutOp where
  tabId : Int
  dataUrl : String
  url : Option String
  now : Int
  deriving Repr, DecidableEq

/-- A sequence of `setScreenshot` calls, applied left to right. -/
def applyPuts (cache : ScreenshotCache) (puts : List PutOp) : ScreenshotCache :=
  puts.foldl (fun acc p => setScreenshot acc p.tabId p.dataUrl p.url p.now) cache

/-- Function `getScreenshot`: lookup by tab id first (the entry counts only when its
`dataUrl` is truthy), otherwise scan the entries for a matching stored
source url, otherwise `null`. -/
def getScreenshot (cache : ScreenshotCache) (tabId : Int) (url : Option String) :
    Option String :=
  let byId :=
    match cache.find? (fun p => p.1 == tabId) with
    | some p => if p.2.dataUrl != "" then some p.2.dataUrl else none
    | none => none
  match byId with
  | some d => some d
  | none =>
    let urlTruthy := match url with
      | none => false
      | some u => u != ""
    if urlTruthy then
      match cache.find? (fun p => p.2.url == url && p.2.dataUrl != "") with
      | some p => some p.2.dataUrl
      | none => none
    else none

/-- The payload built by the background `toggleTabSwitcher`: MRU-sort the
window's tabs, keep only the first 20, and attach cached screenshots. -/
def toggleTabSwitcherPayload (mruTabOrder : List Int) (cache : ScreenshotCache)
    (allTabs : List Tab) : List (Tab × Option String) :=
  let sortedTabs := sortTabsByMRU mruTabOrder allTabs
  let tabsToSend := sortedTabs.take 20
  tabsToSend.map (fun t => (t, getScreenshot cache t.id t.url))

/-! ## Switcher controller (content script) -/

/-- Ephemeral per-page switcher session state. -/
structure SwitcherState where
  visible : Bool
  tabs : List Tab
  currentTabId : Int
  selectedIndex : Int
  searchQuery : String
  deriving Repr, DecidableEq

/-- JS `toLowerCase`, modelled characterwise. -/
def strLower (s : String) : String := ⟨s.data.map Char.toLower⟩

/-- JS `String.prototype.includes`: substring containment. -/
def strIncludes (s q : String) : Bool := decide (q.data <:+: s.data)

/-- Function `getFilteredTabs`: the full list for an empty query, otherwise the tabs
whose (possibly missing) title or url contains the lowercased query. -/
def getFilteredTabs (st : SwitcherState) : List Tab :=
  if st.searchQuery == "" then st.tabs
  else
    let query := strLower st.searchQuery
    st.tabs.filter (fun tab =>
      strIncludes (strLower (tab.title.getD "")) query ||
      strIncludes (strLower (tab.url.getD "")) query)

/-- The selected-index adjustment performed at the top of `renderTabs`:
clamp into the bounds of the filtered list. -/
def renderClamp (st : SwitcherState) : SwitcherState :=
  let len : Int := (getFilteredTabs st).length
  let i1 := if st.selectedIndex ≥ len then len - 1 else st.selectedIndex
  let i2 := if i1 < 0 then 0 else i1
  { st with selectedIndex := i2 }

/-- Function `hideSwitcher`: tear the UI down. (It also resets the four modifier
flags, which live in `KeyState` below.) -/
def hideSwitcher (st : SwitcherState) : SwitcherState :=
  { st with visible := false, searchQuery := "" }

/-- The `toggleSwitcher` message branch of the content script's
`chrome.runtime.onMessage` listener: store the truncated tab list, then
either cycle the selection (already visible) or pick the initial selection
and show the UI. `maxTabs` is the width-derived or configured capacity
computed by `getMaxTabsForWidth`. -/
def toggleSwitcher (st : SwitcherState) (reqTabs : List Tab)
    (reqCurrentTabId : Int) (direction : String) (maxTabs : Nat) : SwitcherState :=
  let limitedTabs := reqTabs.take maxTabs
  let st1 := { st with tabs := limitedTabs, currentTabId := reqCurrentTabId }
  if st1.visible then
    let filteredTabs := getFilteredTabs st1
    if filteredTabs.length > 0 then
      let newIndex : Int :=
        if direction == "forward" then
          (st1.selectedIndex + 1) % (filteredTabs.length : Int)
        else
          (st1.selectedIndex - 1 + (filteredTabs.length : Int)) % (filteredTabs.length : Int)
      renderClamp { st1 with selectedIndex := newIndex }
    else st1
  else
    let initIndex : Int :=
      if direction == "forward" then
        (if limitedTabs.length > 1 then 1 else 0)
      else
        (if limitedTabs.length > 1 then (limitedTabs.length : Int) - 1 else 0)
    renderClamp { st1 with selectedIndex := initIndex, visible := true, searchQuery := "" }

/-- JS `filteredTabs[selectedIndex]` indexing with a number, `undefined`
when out of bounds. -/
def selTab (st : SwitcherState) : Option Tab :=
  if st.selectedIndex < 0 then none
  else (getFilteredTabs st)[st.selectedIndex.toNat]?

/-! ## Modifier-key state machine (content script) -/

/-- The four process-wide modifier flags. -/
structure KeyState where
  ctrl : Bool
  meta : Bool
  shift : Bool
  alt : Bool
  deriving Repr, DecidableEq

/-- Flag updates performed on `keydown`. -/
def setKey (ks : KeyState) (key : String) : KeyState :=
  { ctrl := if key == "Control" then true else ks.ctrl
    meta := if key == "Meta" then true else ks.meta
    shift := if key == "Shift" then true else ks.shift
    alt := if key == "Alt" then true else ks.alt }

/-- Flag updates performed on `keyup`. -/
def clearKey (ks : KeyState) (key : String) : KeyState :=
  { ctrl := if key == "Control" then false else ks.ctrl
    meta := if key == "Meta" then false else ks.meta
    shift := if key == "Shift" then false else ks.shift
    alt := if key == "Alt" then false else ks.alt }

/-- The four tracked modifier key names. -/
def isModKey (key : String) : Bool :=
  key == "Control" || key == "Meta" || key == "Alt" || key == "Shift"

/-- All four flags are down. -/
def allKeysUp (ks : KeyState) : Bool :=
  !ks.ctrl && !ks.meta && !ks.alt && !ks.shift

/-- Read the flag belonging to one of the four tracked keys. -/
def modFlag (ks : KeyState) (key : String) : Bool :=
  if key == "Control" then ks.ctrl
  else if key == "Meta" then ks.meta
  else if key == "Shift" then ks.shift
  else if key == "Alt" then ks.alt
  else false

/-- Function `handleGlobalKeyup`: record the release; when the switcher is visible,
a tracked modifier was released and all four flags are now clear, commit to
the selected tab (`switchToTab` sends the request and its callback hides
the switcher). Returns the new key state, the new session state, and the
tab id of the issued `switchToTab` request, if any. -/
def handleGlobalKeyup (ks : KeyState) (st : SwitcherState) (key : String) :
    KeyState × SwitcherState × Option Int :=
  let ks1 := clearKey ks key
  if !st.visible then (ks1, st, none)
  else if isModKey key then
    if allKeysUp ks1 then
      match selTab st with
      | some t => (ks1, hideSwitcher st, some t.id)
      | none => (ks1, st, none)
    else (ks1, st, none)
  else (ks1, st, none)

/-- Function `closeSelectedTab`: no-op (and no request) when there is no selected
tab or the selected tab is the session's own tab; otherwise issue a
`closeTab` request and, on success, drop the tab from the local list, clamp
the selection, and hide the UI when the list became empty. Returns the tab
id of the issued request, if any, and the state after a successful close. -/
def closeSelectedTab (st : SwitcherState) : Option Int × SwitcherState :=
  let filteredTabs := getFilteredTabs st
  if filteredTabs.length == 0 then (none, st)
  else
    match selTab st with
    | none => (none, st)
    | some tabToClose =>
      if tabToClose.id == st.currentTabId then (none, st)
      else
        let newTabs := st.tabs.filter (fun t => t.id != tabToClose.id)
        let idx1 : Int :=
          if st.selectedIndex ≥ (newTabs.length : Int) then
            max 0 ((newTabs.length : Int) - 1)
          else st.selectedIndex
        if newTabs.length == 0 then
          (some tabToClose.id, hideSwitcher { st with tabs := newTabs, selectedIndex := idx1 })
        else
          (some tabToClose.id, renderClamp { st with tabs := newTabs, selectedIndex := idx1 })

/-- Events that touch the modifier flags: the global keydown/keyup
listeners, the window `blur` listener, and `hideSwitcher`'s teardown
reset. -/
inductive KeyEvent where
  | down (key : String)
  | up (key : String)
  | blurEvent
  | teardown
  deriving Repr, DecidableEq

/-- Effect of one event on the modifier flags. -/
def keyEventStep (ks : KeyState) : KeyEvent → KeyState
  | .down k => setKey ks k
  | .up k => clearKey ks k
  | .blurEvent => ⟨false, false, false, false⟩
  | .teardown => ⟨false, false, false, false⟩

/-- A sequence of events, applied left to right. -/
def applyKeyEvents (ks : KeyState) (evs : List KeyEvent) : KeyState :=
  evs.foldl keyEventStep ks

/-! ## Claim C9: search filtering -/

/-- Claim C9: for every tab list and non-empty search query, the filtered
candidate list is exactly the order-preserving subsequence of tabs whose
title or URL contains the query as a case-insensitive substring (missing
title/url behaving as the empty string); for the empty query it is the
full tab list. -/
theorem claim_C9_getFilteredTabs (st : SwitcherState) (q : String)
    (hq : st.searchQuery = q) :
    (q = "" → getFilteredTabs st = st.tabs) ∧
    (q ≠ "" →
      getFilteredTabs st <+ st.tabs ∧
      getFilteredTabs st = st.tabs.filter (fun tab =>
        decide ((strLower q).data <:+: (strLower (tab.title.getD "")).data) ||
        decide ((strLower q).data <:+: (strLower (tab.url.getD "")).data))) := by
  subst hq
  constructor
  · intro h
    simp [getFilteredTabs, h]
  · intro h
    have hb : (st.searchQuery == "") = false := beq_eq_false_iff_ne.mpr h
    constructor
    · rw [getFilteredTabs, hb]
      simp only [Bool.false_eq_true, if_false]
      exact List.filter_sublist _
    · rw [getFilteredTabs, hb]
      simp only [Bool.false_eq_true, if_false, strIncludes]

/-- Witness for C9 at the spec's own scenario: query "git" over tabs
titled GitHub, Twitter, GitLab keeps GitHub and GitLab in order. -/
def tabsW : List Tab :=
  [⟨1, some "GitHub", some "https://github.com"⟩,
   ⟨2, some "Twitter", some "https://twitter.com"⟩,
   ⟨3, some "GitLab", some "https://gitlab.com"⟩]

def stW : SwitcherState :=
  { visible := true, tabs := tabsW, currentTabId := 1, selectedIndex := 0,
    searchQuery := "git" }

theorem claim_C9_witness :
    stW.searchQuery = "git" ∧
    ("git" ≠ "" →
      getFilteredTabs stW <+ stW.tabs ∧
      getFilteredTabs stW = stW.tabs.filter (fun tab =>
        decide ((strLower "git").data <:+: (strLower (tab.title.getD "")).data) ||
        decide ((strLower "git").data <:+: (strLower (tab.url.getD "")).data))) :=
  ⟨rfl, (claim_C9_getFilteredTabs stW "git" rfl).2⟩

/-! ## Claim C10: background payload truncation -/

/-- Claim C10: the background `toggleTabSwitcher` truncates the MRU-sorted
tab list to its first 20 entries before attaching screenshots, so the
forwarded payload never holds more than 20 candidates. -/
theorem claim_C10_payload_truncation (mruTabOrder : List Int)
    (cache : ScreenshotCache) (allTabs : List Tab) :
    (toggleTabSwitcherPayload mruTabOrder cache allTabs).length ≤ 20 ∧
    (toggleTabSwitcherPayload mruTabOrder cache allTabs).map Prod.fst =
      (sortTabsByMRU mruTabOrder allTabs).take 20 := by
  constructor
  · simp [toggleTabSwitcherPayload]
  · simp [toggleTabSwitcherPayload, Function.comp_def]

/-! ## Claim C7: modifier flags and window blur -/

/-- Claim C7: after any event sequence followed by a window blur all four
modifier flags are false; and no event other than blur, the matching
key-up, or the switcher teardown clears a tracked flag that is set. -/
theorem claim_C7_blur_resets_flags (ks : KeyState) (evs : List KeyEvent)
    (key : String) (e : KeyEvent) (hkey : isModKey key = true) :
    applyKeyEvents ks (evs ++ [KeyEvent.blurEvent]) = ⟨false, false, false, false⟩ ∧
    (modFlag ks key = true → e ≠ KeyEvent.blurEvent → e ≠ KeyEvent.teardown →
      e ≠ KeyEvent.up key → modFlag (keyEventStep ks e) key = true) := by
  constructor
  · simp [applyKeyEvents, List.foldl_append, keyEventStep]
  · intro hset hblur htear hup
    simp only [isModKey, Bool.or_eq_true, beq_iff_eq] at hkey
    cases e with
    | down k =>
      cases hc : (k == key) <;>
        rcases hkey with ((rfl | rfl) | rfl) | rfl <;>
          simp_all [keyEventStep, setKey, modFlag]
    | up k =>
      have hne : k ≠ key := fun hkk => hup (by rw [hkk])
      have hbe : (k == key) = false := beq_eq_false_iff_ne.mpr hne
      rcases hkey with ((rfl | rfl) | rfl) | rfl <;>
        simp_all [keyEventStep, clearKey, modFlag]
    | blurEvent => exact absurd rfl hblur
    | teardown => exact absurd rfl htear

/-! ## Claim C5: toggle-request selection logic -/

/-- An empty query leaves the tab list unfiltered. -/
theorem getFilteredTabs_empty_query (st : SwitcherState) (h : st.searchQuery = "") :
    getFilteredTabs st = st.tabs := by
  simp [getFilteredTabs, h]

/-- The clamp in `renderTabs` is the identity on an in-bounds selection. -/
theorem renderClamp_of_inBounds (st : SwitcherState)
    (h0 : 0 ≤ st.selectedIndex)
    (h1 : st.selectedIndex < ((getFilteredTabs st).length : Int)) :
    renderClamp st = st := by
  simp only [renderClamp]
  rw [if_neg (by omega), if_neg (by omega)]

/-- The clamp in `renderTabs`, written out as the value of the adjusted index. -/
theorem renderClamp_selectedIndex_formula (s : SwitcherState) :
    (renderClamp s).selectedIndex =
      if (if s.selectedIndex ≥ ((getFilteredTabs s).length : Int)
          then ((getFilteredTabs s).length : Int) - 1 else s.selectedIndex) < 0 then 0
      else (if s.selectedIndex ≥ ((getFilteredTabs s).length : Int)
          then ((getFilteredTabs s).length : Int) - 1 else s.selectedIndex) := rfl

/-- The clamp in `renderTabs` returns an in-bounds selection unchanged. -/
theorem renderClamp_mk_inBounds (v : Bool) (tb : List Tab) (cid m : Int) (q : String)
    (hm0 : 0 ≤ m)
    (hmlt : m < ((getFilteredTabs ⟨v, tb, cid, m, q⟩).length : Int)) :
    (renderClamp ⟨v, tb, cid, m, q⟩).selectedIndex = m := by
  rw [renderClamp_of_inBounds _ hm0 hmlt]

/-- The clamp in `renderTabs` after the hidden-to-visible transition: the empty
query makes the whole (truncated) tab list the filtered list, and an
initial index that is in bounds or zero clamps to itself or zero. -/
theorem renderClamp_hidden_index (lim : List Tab) (cid : Int) (i0 : Int)
    (h0 : 0 ≤ i0) (h : i0 < (lim.length : Int) ∨ i0 = 0) :
    (renderClamp ⟨true, lim, cid, i0, ""⟩).selectedIndex =
      if i0 < (lim.length : Int) then i0 else 0 := by
  have hf : getFilteredTabs ⟨true, lim, cid, i0, ""⟩ = lim := rfl
  rw [renderClamp_selectedIndex_formula, hf]
  show (if (if i0 ≥ (lim.length : Int) then (lim.length : Int) - 1 else i0) < 0 then 0
    else (if i0 ≥ (lim.length : Int) then (lim.length : Int) - 1 else i0)) = _
  split_ifs <;> omega

/-- JS forward cycling `(i + 1) % n` on an in-range index wraps at the top
end. -/
theorem emod_wrap_forward (i n : Int) (h0 : 0 ≤ i) (h1 : i < n) :
    (i + 1) % n = if i + 1 = n then 0 else i + 1 := by
  split_ifs with h
  · rw [h]
    exact Int.emod_self
  · exact Int.emod_eq_of_lt (by omega) (by omega)

/-- JS backward cycling `(i - 1 + n) % n` on an in-range index wraps at the
bottom end. -/
theorem emod_wrap_backward (i n : Int) (h0 : 0 ≤ i) (h1 : i < n) :
    (i - 1 + n) % n = if i = 0 then n - 1 else i - 1 := by
  split_ifs with h
  · subst h
    have he : (0 : Int) - 1 + n = n - 1 := by ring
    rw [he]
    exact Int.emod_eq_of_lt (by omega) (by omega)
  · have he : i - 1 + n = (i - 1) + n * 1 := by ring
    rw [he, Int.add_mul_emod_self_left]
    exact Int.emod_eq_of_lt (by omega) (by omega)

/-- Claim C5: on a toggle request while hidden, the initial selection is 1
(forward, more than one truncated tab), the last index (backward, more
than one truncated tab) or 0; while visible with a non-empty filtered
list, the selection advances by plus or minus one modulo the filtered
count, wrapping at both ends. -/
theorem claim_C5_toggle_selection (st : SwitcherState) (reqTabs : List Tab)
    (reqCurrentTabId : Int) (direction : String) (maxTabs : Nat)
    (hdir : direction = "forward" ∨ direction = "backward") :
    (st.visible = false →
      (toggleSwitcher st reqTabs reqCurrentTabId direction maxTabs).visible = true ∧
      (toggleSwitcher st reqTabs reqCurrentTabId direction maxTabs).tabs =
        reqTabs.take maxTabs ∧
      (toggleSwitcher st reqTabs reqCurrentTabId direction maxTabs).selectedIndex =
        (if direction = "forward" then
          (if 1 < (reqTabs.take maxTabs).length then 1 else 0)
         else
          (if 1 < (reqTabs.take maxTabs).length then
            ((reqTabs.take maxTabs).length : Int) - 1
           else 0))) ∧
    (st.visible = true →
      ∀ fl : List Tab,
        fl = getFilteredTabs
          { st with tabs := reqTabs.take maxTabs, currentTabId := reqCurrentTabId } →
        0 ≤ st.selectedIndex → st.selectedIndex < (fl.length : Int) →
        (toggleSwitcher st reqTabs reqCurrentTabId direction maxTabs).selectedIndex =
          (if direction = "forward" then
            (if st.selectedIndex + 1 = (fl.length : Int) then 0 else st.selectedIndex + 1)
           else
            (if st.selectedIndex = 0 then (fl.length : Int) - 1 else st.selectedIndex - 1))) := by
  constructor
  · intro hv
    refine ⟨?_, ?_, ?_⟩ <;>
      simp only [toggleSwitcher] <;>
      rcases hdir with rfl | rfl
    · split
      · rename_i hvf
        exact absurd hvf (by simp [hv])
      · rfl
    · split
      · rename_i hvf
        exact absurd hvf (by simp [hv])
      · rfl
    · split
      · rename_i hvf
        exact absurd hvf (by simp [hv])
      · rfl
    · split
      · rename_i hvf
        exact absurd hvf (by simp [hv])
      · rfl
    · split
      · rename_i hvf
        exact absurd hvf (by simp [hv])
      · show (renderClamp ⟨true, reqTabs.take maxTabs, reqCurrentTabId, (if 1 < (reqTabs.take maxTabs).length then (1 : Int) else 0), ""⟩).selectedIndex = _
        rw [renderClamp_hidden_index (reqTabs.take maxTabs) reqCurrentTabId (if 1 < (reqTabs.take maxTabs).length then (1 : Int) else 0) (by split_ifs <;> omega) (by split_ifs <;> omega)]
        rw [if_pos (show ("forward" : String) = "forward" from rfl)]
        split_ifs <;> omega
    · split
      · rename_i hvf
        exact absurd hvf (by simp [hv])
      · show (renderClamp ⟨true, reqTabs.take maxTabs, reqCurrentTabId, (if 1 < (reqTabs.take maxTabs).length then ((reqTabs.take maxTabs).length : Int) - 1 else 0), ""⟩).selectedIndex = _
        rw [renderClamp_hidden_index (reqTabs.take maxTabs) reqCurrentTabId (if 1 < (reqTabs.take maxTabs).length then ((reqTabs.take maxTabs).length : Int) - 1 else 0) (by split_ifs <;> omega) (by split_ifs <;> omega)]
        rw [if_neg (show ¬(("backward" : String) = "forward") from by decide)]
        split_ifs <;> omega
  · intro hv fl hfl h0 h1
    subst hfl
    have hne : ((getFilteredTabs { st with tabs := reqTabs.take maxTabs, currentTabId := reqCurrentTabId }).length : Int) ≠ 0 := by omega
    have hpos : (0 : Int) < ((getFilteredTabs { st with tabs := reqTabs.take maxTabs, currentTabId := reqCurrentTabId }).length : Int) := by omega
    rcases hdir with rfl | rfl
    · simp only [toggleSwitcher]
      split
      · split
        · show (renderClamp ⟨st.visible, reqTabs.take maxTabs, reqCurrentTabId, (st.selectedIndex + 1) % ((getFilteredTabs { st with tabs := reqTabs.take maxTabs, currentTabId := reqCurrentTabId }).length : Int), st.searchQuery⟩).selectedIndex = _
          rw [renderClamp_mk_inBounds st.visible (reqTabs.take maxTabs) reqCurrentTabId ((st.selectedIndex + 1) % ((getFilteredTabs { st with tabs := reqTabs.take maxTabs, currentTabId := reqCurrentTabId }).length : Int)) st.searchQuery (by exact Int.emod_nonneg _ hne) (by exact Int.emod_lt_of_pos _ hpos)]
          rw [emod_wrap_forward _ _ h0 h1]
          simp
        · exfalso
          omega
      · rename_i hvf
        exact absurd hv (by simpa using hvf)
    · simp only [toggleSwitcher]
      split
      · split
        · show (renderClamp ⟨st.visible, reqTabs.take maxTabs, reqCurrentTabId, (st.selectedIndex - 1 + ((getFilteredTabs { st with tabs := reqTabs.take maxTabs, currentTabId := reqCurrentTabId }).length : Int)) % ((getFilteredTabs { st with tabs := reqTabs.take maxTabs, currentTabId := reqCurrentTabId }).length : Int), st.searchQuery⟩).selectedIndex = _
          rw [renderClamp_mk_inBounds st.visible (reqTabs.take maxTabs) reqCurrentTabId ((st.selectedIndex - 1 + ((getFilteredTabs { st with tabs := reqTabs.take maxTabs, currentTabId := reqCurrentTabId }).length : Int)) % ((getFilteredTabs { st with tabs := reqTabs.take maxTabs, currentTabId := reqCurrentTabId }).length : Int)) st.searchQuery (by exact Int.emod_nonneg _ hne) (by exact Int.emod_lt_of_pos _ hpos)]
          rw [emod_wrap_backward _ _ h0 h1]
          simp
        · exfalso
          omega
      · rename_i hvf
        exact absurd hv (by simpa using hvf)

/-! ## Claim C6: commit on full modifier release -/

/-- Claim C6: while visible, releasing a tracked modifier commits exactly
when all four flags are clear after the release and a tab sits at the
selected index: a `switchToTab` request carries that tab's id and the UI
is torn down; when a flag is still held, no request is issued. -/
theorem claim_C6_keyup_commit (ks : KeyState) (st : SwitcherState) (key : String)
    (hv : st.visible = true) (hk : isModKey key = true) :
    (allKeysUp (clearKey ks key) = true →
      ∀ t, selTab st = some t →
        (handleGlobalKeyup ks st key).2.2 = some t.id ∧
        (handleGlobalKeyup ks st key).2.1.visible = false) ∧
    (allKeysUp (clearKey ks key) = false →
      (handleGlobalKeyup ks st key).2.2 = none) := by
  constructor
  · intro ha t hsel
    simp [handleGlobalKeyup, hv, hk, ha, hsel, hideSwitcher]
  · intro ha
    simp [handleGlobalKeyup, hv, hk, ha]

/-- The hidden state used to witness C5. -/
def stHid : SwitcherState :=
  { visible := false, tabs := [], currentTabId := 0, selectedIndex := 0, searchQuery := "" }

theorem claim_C5_witness :
    (("forward" : String) = "forward" ∨ ("forward" : String) = "backward") ∧
    (stHid.visible = false →
      (toggleSwitcher stHid tabsW 1 "forward" 10).visible = true ∧
      (toggleSwitcher stHid tabsW 1 "forward" 10).tabs = tabsW.take 10 ∧
      (toggleSwitcher stHid tabsW 1 "forward" 10).selectedIndex =
        (if ("forward" : String) = "forward" then
          (if 1 < (tabsW.take 10).length then 1 else 0)
         else
          (if 1 < (tabsW.take 10).length then ((tabsW.take 10).length : Int) - 1 else 0))) :=
  ⟨Or.inl rfl, (claim_C5_toggle_selection stHid tabsW 1 "forward" 10 (Or.inl rfl)).1⟩

theorem claim_C6_witness :
    stW.visible = true ∧ isModKey "Control" = true ∧
    (allKeysUp (clearKey ⟨true, false, false, false⟩ "Control") = true →
      ∀ t, selTab stW = some t →
        (handleGlobalKeyup ⟨true, false, false, false⟩ stW "Control").2.2 = some t.id ∧
        (handleGlobalKeyup ⟨true, false, false, false⟩ stW "Control").2.1.visible = false) :=
  ⟨rfl, by decide,
   (claim_C6_keyup_commit ⟨true, false, false, false⟩ stW "Control" rfl (by decide)).1⟩

/-! ## Claim C8: closing the selected tab -/

/-- Filtering never lengthens the candidate list. -/
theorem getFilteredTabs_length_le (st : SwitcherState) :
    (getFilteredTabs st).length ≤ st.tabs.length := by
  rw [getFilteredTabs]
  split
  · exact Nat.le_refl _
  · exact List.length_filter_le _ _

/-- The clamp in `renderTabs` always lands in the bounds of a non-empty tab
list. -/
theorem renderClamp_bounds (s : SwitcherState) (hpos : 0 < s.tabs.length) :
    0 ≤ (renderClamp s).selectedIndex ∧
    (renderClamp s).selectedIndex < (s.tabs.length : Int) := by
  have hfle := getFilteredTabs_length_le s
  rw [renderClamp_selectedIndex_formula]
  constructor <;> split_ifs <;> omega

/-- Claim C8: with a tab at the selected index, pressing the close-tab key
is a no-op when that tab is the session's own tab; otherwise a `closeTab`
request for its id is issued and, on success, the tab leaves the local
list, the selection is clamped into the new bounds, and the UI closes
exactly when the list became empty. -/
theorem claim_C8_closeSelectedTab (st : SwitcherState) (t : Tab)
    (hsel : selTab st = some t) :
    (t.id = st.currentTabId → closeSelectedTab st = (none, st)) ∧
    (t.id ≠ st.currentTabId →
      (closeSelectedTab st).1 = some t.id ∧
      (closeSelectedTab st).2.tabs = st.tabs.filter (fun x => x.id != t.id) ∧
      (st.tabs.filter (fun x => x.id != t.id) = [] →
        (closeSelectedTab st).2.visible = false) ∧
      (st.tabs.filter (fun x => x.id != t.id) ≠ [] →
        (closeSelectedTab st).2.visible = st.visible ∧
        0 ≤ (closeSelectedTab st).2.selectedIndex ∧
        (closeSelectedTab st).2.selectedIndex <
          (((closeSelectedTab st).2.tabs.length : Int)))) := by
  have hneg : ¬ st.selectedIndex < 0 := by
    intro h
    simp [selTab, h] at hsel
  have hget : (getFilteredTabs st)[st.selectedIndex.toNat]? = some t := by
    simpa [selTab, hneg] using hsel
  have htlt : st.selectedIndex.toNat < (getFilteredTabs st).length :=
    (List.getElem?_eq_some_iff.mp hget).1
  have hc0 : ((getFilteredTabs st).length == 0) = false :=
    beq_eq_false_iff_ne.mpr (by omega)
  constructor
  · intro heq
    have hbeq : (t.id == st.currentTabId) = true := beq_iff_eq.mpr heq
    simp [closeSelectedTab, hc0, hsel, hbeq]
  · intro hne
    have hbne : (t.id == st.currentTabId) = false := beq_eq_false_iff_ne.mpr hne
    simp only [closeSelectedTab, hc0, Bool.false_eq_true, if_false, hsel, hbne]
    refine ⟨?_, ?_, ?_, ?_⟩
    · split <;> rfl
    · split <;> rfl
    · intro hE
      simp [hE, hideSwitcher]
    · intro hNE
      have hlen1 : 0 < (st.tabs.filter (fun x => x.id != t.id)).length :=
        List.length_pos.mpr hNE
      rw [if_neg (by simp only [beq_iff_eq]; omega)]
      exact ⟨rfl, (renderClamp_bounds _ (by exact hlen1)).1,
        (renderClamp_bounds _ (by exact hlen1)).2⟩

/-- The state used to witness C8: three tabs, selection on index 1
(tab id 2), session tab id 1. -/
def stC8 : SwitcherState :=
  { visible := true, tabs := tabsW, currentTabId := 1, selectedIndex := 1,
    searchQuery := "" }

theorem claim_C8_witness :
    selTab stC8 = some ⟨2, some "Twitter", some "https://twitter.com"⟩ ∧
    ((2 : Int) = stC8.currentTabId →
      closeSelectedTab stC8 = (none, stC8)) :=
  ⟨by decide,
   (claim_C8_closeSelectedTab stC8 ⟨2, some "Twitter", some "https://twitter.com"⟩
      (by decide)).1⟩

theorem claim_C7_witness :
    isModKey "Control" = true ∧
    applyKeyEvents ⟨true, false, true, false⟩
      ([KeyEvent.down "Shift"] ++ [KeyEvent.blurEvent]) = ⟨false, false, false, false⟩ :=
  ⟨by decide,
   (claim_C7_blur_resets_flags ⟨true, false, true, false⟩ [KeyEvent.down "Shift"]
      "Control" (KeyEvent.down "Shift") (by decide)).1⟩

/-! ## Claim C2: MRU invariants under activation -/

/-- One activation keeps the MRU list duplicate-free. -/
theorem recordActivation_nodup (m : List Int) (a : Int) (h : m.Nodup) :
    (recordActivation m a).Nodup := by
  have hfr : (a :: m.filter (fun id => id != a)).Nodup := by
    refine List.Nodup.cons ?_ (h.filter _)
    intro hmem
    have hp := List.of_mem_filter hmem
    simp at hp
  simp only [recordActivation]
  split
  · exact (List.take_sublist _ _).nodup hfr
  · exact hfr

/-- Any activation sequence keeps the MRU list duplicate-free. -/
theorem recordActivations_nodup (acts : List Int) : ∀ (m : List Int), m.Nodup →
    (recordActivations m acts).Nodup := by
  induction acts with
  | nil => exact fun m h => h
  | cons a rest ih => exact fun m h => ih _ (recordActivation_nodup m a h)

/-- The freshly activated id lands at the front. -/
theorem recordActivation_head (m : List Int) (a : Int) :
    (recordActivation m a).head? = some a := by
  simp only [recordActivation]
  split
  · rfl
  · rfl

/-- One activation caps the list at 100 entries. -/
theorem recordActivation_length (m : List Int) (a : Int) :
    (recordActivation m a).length ≤ 100 := by
  simp only [recordActivation]
  split
  · rw [List.length_take]
    omega
  · rename_i h
    omega

/-- Truncation only drops entries from the tail: the updated list is an
initial segment of the untruncated remove-then-push-front list. -/
theorem recordActivation_drop_tail (m : List Int) (a : Int) :
    recordActivation m a <+: a :: m.filter (fun id => id != a) := by
  simp only [recordActivation]
  split
  · exact List.take_prefix _ _
  · exact List.prefix_refl _

/-- Claim C2: after any non-empty sequence of `recordActivation` calls on a
duplicate-free MRU list, the list has no duplicate ids, carries the most
recently activated id at the front, has length at most 100, and the final
truncation dropped only tail entries. -/
theorem claim_C2_mru_invariants (mru : List Int) (acts : List Int) (a : Int)
    (h : mru.Nodup) :
    (recordActivations mru (acts ++ [a])).Nodup ∧
    (recordActivations mru (acts ++ [a])).head? = some a ∧
    (recordActivations mru (acts ++ [a])).length ≤ 100 ∧
    recordActivations mru (acts ++ [a]) <+:
      a :: (recordActivations mru acts).filter (fun id => id != a) := by
  have hsnoc : recordActivations mru (acts ++ [a]) =
      recordActivation (recordActivations mru acts) a := by
    simp [recordActivations, List.foldl_append]
  rw [hsnoc]
  exact ⟨recordActivation_nodup _ _ (recordActivations_nodup acts mru h),
    recordActivation_head _ _, recordActivation_length _ _,
    recordActivation_drop_tail _ _⟩

theorem claim_C2_witness :
    ([5, 7] : List Int).Nodup ∧
    (recordActivations [5, 7] ([3] ++ [7])).Nodup ∧
    (recordActivations [5, 7] ([3] ++ [7])).head? = some 7 ∧
    (recordActivations [5, 7] ([3] ++ [7])).length ≤ 100 ∧
    recordActivations [5, 7] ([3] ++ [7]) <+:
      7 :: (recordActivations [5, 7] [3]).filter (fun id => id != 7) :=
  ⟨by decide,
   (claim_C2_mru_invariants [5, 7] [3] 7 (by decide)).1,
   (claim_C2_mru_invariants [5, 7] [3] 7 (by decide)).2.1,
   (claim_C2_mru_invariants [5, 7] [3] 7 (by decide)).2.2.1,
   (claim_C2_mru_invariants [5, 7] [3] 7 (by decide)).2.2.2⟩

/-! ## Claim C1: sortTabsByMRU is a stable partition -/

/-- The tabs pushed by the first loop of `sortTabsByMRU`. -/
def mruPicked (tabs : List Tab) (mru : List Int) : List Tab :=
  mru.filterMap (tabMapGet tabs)

/-- The ids recorded in `addedIds` by the first loop of `sortTabsByMRU`. -/
def mruAdded (tabs : List Tab) (mru : List Int) : List Int :=
  mru.filter (fun i => (tabMapGet tabs i).isSome)

/-- The fold of `sortStep` accumulates exactly the picked tabs and added
ids. -/
theorem foldl_sortStep (tabs : List Tab) :
    ∀ (mru : List Int) (acc : List Tab × List Int),
      mru.foldl (sortStep tabs) acc =
        (acc.1 ++ mruPicked tabs mru, acc.2 ++ mruAdded tabs mru) := by
  intro mru
  induction mru with
  | nil =>
    intro acc
    simp [mruPicked, mruAdded]
  | cons i rest ih =>
    intro acc
    rw [List.foldl_cons, ih]
    cases hg : tabMapGet tabs i with
    | some t =>
      simp [sortStep, hg, mruPicked, mruAdded, List.filterMap_cons, List.filter_cons]
    | none =>
      simp [sortStep, hg, mruPicked, mruAdded, List.filterMap_cons, List.filter_cons]

/-- Function `sortTabsByMRU` in closed form. -/
theorem sortTabsByMRU_eq (mru : List Int) (tabs : List Tab) :
    sortTabsByMRU mru tabs = mruPicked tabs mru ++
      tabs.filter (fun tab => !((mruAdded tabs mru).contains tab.id)) := by
  simp only [sortTabsByMRU]
  rw [foldl_sortStep]
  simp

/-- With duplicate-free tab ids, the last-write-wins `Map` lookup agrees
with a front-to-back search. -/
theorem tabMapGet_eq_find? (tabs : List Tab) (i : Int)
    (hn : (tabs.map Tab.id).Nodup) :
    tabMapGet tabs i = tabs.find? (fun t => t.id == i) := by
  rw [tabMapGet]
  rcases hr : tabs.reverse.find? (fun t => t.id == i) with _ | t <;>
    rcases hf : tabs.find? (fun t => t.id == i) with _ | t'
  · rw [hr, hf]
  · have h1 : ∀ x ∈ tabs.reverse, ¬ (x.id == i) = true := List.find?_eq_none.mp hr
    have h2 : t' ∈ tabs := List.mem_of_find?_eq_some hf
    exact absurd (List.find?_some hf) (h1 t' (List.mem_reverse.mpr h2))
  · have h1 : ∀ x ∈ tabs, ¬ (x.id == i) = true := List.find?_eq_none.mp hf
    have h2 : t ∈ tabs := List.mem_reverse.mp (List.mem_of_find?_eq_some hr)
    exact absurd (List.find?_some hr) (h1 t h2)
  · have hti : t.id = i := by simpa using List.find?_some hr
    have hti' : t'.id = i := by simpa using List.find?_some hf
    have ht : t ∈ tabs := List.mem_reverse.mp (List.mem_of_find?_eq_some hr)
    have ht' : t' ∈ tabs := List.mem_of_find?_eq_some hf
    have heq : t = t' := List.inj_on_of_nodup_map hn ht ht' (by rw [hti, hti'])
    rw [hr, hf, heq]

/-- Every live tab's id succeeds in the `Map` lookup. -/
theorem tabMapGet_isSome_of_mem (tabs : List Tab) (t : Tab) (ht : t ∈ tabs) :
    (tabMapGet tabs t.id).isSome := by
  rw [tabMapGet, List.find?_isSome]
  exact ⟨t, List.mem_reverse.mpr ht, by simp⟩

/-- On live tabs, membership in `addedIds` is membership in the MRU list. -/
theorem mruAdded_contains (tabs : List Tab) (mru : List Int) (t : Tab)
    (ht : t ∈ tabs) :
    ((mruAdded tabs mru).contains t.id) = (mru.contains t.id) := by
  have hs := tabMapGet_isSome_of_mem tabs t ht
  by_cases h : t.id ∈ mru
  · have h1 : t.id ∈ mruAdded tabs mru := List.mem_filter.mpr ⟨h, hs⟩
    simp [h, h1]
  · have h1 : t.id ∉ mruAdded tabs mru := fun hm => h (List.mem_of_mem_filter hm)
    simp [h, h1]

/-- Claim C1: on live tabs with distinct ids and a duplicate-free MRU
order, `sortTabsByMRU` yields exactly the MRU-matched tabs in MRU order
followed by the untracked tabs in host order, and the result is a
permutation of the input (each input tab exactly once). -/
theorem claim_C1_stable_partition (mruTabOrder : List Int) (tabs : List Tab)
    (hids : (tabs.map Tab.id).Nodup) (hmru : mruTabOrder.Nodup) :
    sortTabsByMRU mruTabOrder tabs =
      mruTabOrder.filterMap (fun tabId => tabs.find? (fun t => t.id == tabId)) ++
      tabs.filter (fun tab => !(mruTabOrder.contains tab.id)) ∧
    List.Perm (sortTabsByMRU mruTabOrder tabs) tabs := by
  have h1 : sortTabsByMRU mruTabOrder tabs =
      mruTabOrder.filterMap (fun tabId => tabs.find? (fun t => t.id == tabId)) ++
      tabs.filter (fun tab => !(mruTabOrder.contains tab.id)) := by
    rw [sortTabsByMRU_eq]
    have hfun : tabMapGet tabs = fun i => tabs.find? (fun t => t.id == i) :=
      funext fun i => tabMapGet_eq_find? tabs i hids
    rw [mruPicked, hfun]
    congr 1
    exact List.filter_congr fun x hx => by
      rw [mruAdded_contains tabs mruTabOrder x hx]
  refine ⟨h1, ?_⟩
  rw [h1]
  have hnodupTabs : tabs.Nodup := List.Nodup.of_map _ hids
  have hAnodup : (mruTabOrder.filterMap
      (fun tabId => tabs.find? (fun t => t.id == tabId))).Nodup := by
    refine List.Nodup.filterMap ?_ hmru
    intro a a' b hb hb'
    have h1' : b.id = a := by
      simpa using List.find?_some (Option.mem_def.mp hb)
    have h2' : b.id = a' := by
      simpa using List.find?_some (Option.mem_def.mp hb')
    rw [← h1', h2']
  have hBnodup : (tabs.filter (fun t => mruTabOrder.contains t.id)).Nodup :=
    hnodupTabs.filter _
  have hmem : ∀ x, x ∈ mruTabOrder.filterMap
      (fun tabId => tabs.find? (fun t => t.id == tabId)) ↔
      x ∈ tabs.filter (fun t => mruTabOrder.contains t.id) := by
    intro x
    constructor
    · intro hx
      obtain ⟨i, hi, hfi⟩ := List.mem_filterMap.mp hx
      have hxt : x ∈ tabs := List.mem_of_find?_eq_some hfi
      have hxi : x.id = i := by simpa using List.find?_some hfi
      refine List.mem_filter.mpr ⟨hxt, ?_⟩
      subst hxi
      simpa using hi
    · intro hx
      obtain ⟨hxt, hxc⟩ := List.mem_filter.mp hx
      have hxi : x.id ∈ mruTabOrder := by simpa using hxc
      refine List.mem_filterMap.mpr ⟨x.id, hxi, ?_⟩
      rcases hfy : tabs.find? (fun t => t.id == x.id) with _ | y
      · exact absurd (by simp : (x.id == x.id) = true)
          (List.find?_eq_none.mp hfy x hxt)
      · have hy : y ∈ tabs := List.mem_of_find?_eq_some hfy
        have hyi : y.id = x.id := by simpa using List.find?_some hfy
        rw [hfy, List.inj_on_of_nodup_map hids hy hxt hyi]
  have hperm : List.Perm (mruTabOrder.filterMap
      (fun tabId => tabs.find? (fun t => t.id == tabId)))
      (tabs.filter (fun t => mruTabOrder.contains t.id)) :=
    List.Subperm.antisymm
      (List.Nodup.subperm hAnodup fun x hx => (hmem x).mp hx)
      (List.Nodup.subperm hBnodup fun x hx => (hmem x).mpr hx)
  exact (hperm.append_right _).trans
    (List.filter_append_perm (fun t => mruTabOrder.contains t.id) tabs)

theorem claim_C1_witness :
    ((tabsW.map Tab.id).Nodup ∧ ([3, 1, 99] : List Int).Nodup) ∧
    sortTabsByMRU [3, 1, 99] tabsW =
      ([3, 1, 99] : List Int).filterMap
        (fun tabId => tabsW.find? (fun t => t.id == tabId)) ++
      tabsW.filter (fun tab => !(([3, 1, 99] : List Int).contains tab.id)) ∧
    List.Perm (sortTabsByMRU [3, 1, 99] tabsW) tabsW :=
  ⟨⟨by decide, by decide⟩,
   (claim_C1_stable_partition [3, 1, 99] tabsW (by decide) (by decide)).1,
   (claim_C1_stable_partition [3, 1, 99] tabsW (by decide) (by decide)).2⟩

/-! ## Claim C4: screenshot lookup precedence -/

/-- A `find?` call only depends on the predicate's values on the list. -/
theorem find?_congr {α : Type} (l : List α) (p q : α → Bool)
    (h : ∀ x ∈ l, p x = q x) : l.find? p = l.find? q := by
  induction l with
  | nil => rfl
  | cons a l ih =>
    have ha := h a (List.mem_cons_self a l)
    have ih' := ih fun x hx => h x (List.mem_cons_of_mem a hx)
    cases hq : q a <;> simp [List.find?_cons, ha, hq, ih']

/-- Claim C4: `getScreenshot` returns the tab-id-keyed image whenever that
entry exists (regardless of url collisions); only with no id match does it
fall back to a stored-source-url scan; with neither it returns null. All
cached images are assumed non-empty (they are host-produced data URIs) and
a supplied url is a real (non-empty) url. -/
theorem claim_C4_getScreenshot (cache : ScreenshotCache) (tabId : Int)
    (url : Option String)
    (hwf : ∀ p ∈ cache, p.2.dataUrl ≠ "")
    (hurl : url ≠ some "") :
    (∀ p, cache.find? (fun q => q.1 == tabId) = some p →
      getScreenshot cache tabId url = some p.2.dataUrl) ∧
    (cache.find? (fun q => q.1 == tabId) = none →
      ∀ u, url = some u →
      getScreenshot cache tabId url =
        (cache.find? (fun q => q.2.url == some u)).map (fun q => q.2.dataUrl)) ∧
    (cache.find? (fun q => q.1 == tabId) = none → url = none →
      getScreenshot cache tabId url = none) := by
  refine ⟨?_, ?_, ?_⟩
  · intro p hp
    have hmem := List.mem_of_find?_eq_some hp
    have hd : (p.2.dataUrl != "") = true := by
      simpa using hwf p hmem
    simp [getScreenshot, hp, hd]
  · intro hnone u hu
    subst hu
    have hune : u ≠ "" := fun h => hurl (by rw [h])
    have hu' : (u != "") = true := by simpa using hune
    have hcong : cache.find? (fun p => p.2.url == some u && p.2.dataUrl != "") =
        cache.find? (fun p => p.2.url == some u) := by
      apply find?_congr
      intro x hx
      have hd : (x.2.dataUrl != "") = true := by simpa using hwf x hx
      rw [hd, Bool.and_true]
    rcases hf : cache.find? (fun p => p.2.url == some u) with _ | p <;>
      simp [getScreenshot, hnone, hu', hcong, hf]
  · intro hnone hu
    subst hu
    simp [getScreenshot, hnone]

/-- The cache used to witness C4. -/
def cacheW4 : ScreenshotCache :=
  [(1, ⟨"imgA", 5, some "https://a.example"⟩),
   (2, ⟨"imgB", 3, some "https://a.example"⟩)]

theorem claim_C4_witness :
    ((∀ p ∈ cacheW4, p.2.dataUrl ≠ "") ∧
      some "https://a.example" ≠ some "") ∧
    (∀ p, cacheW4.find? (fun q => q.1 == 1) = some p →
      getScreenshot cacheW4 1 (some "https://a.example") = some p.2.dataUrl) :=
  ⟨⟨by decide, by decide⟩,
   (claim_C4_getScreenshot cacheW4 1 (some "https://a.example")
      (by decide) (by decide)).1⟩

/-! ## Claim C3: cache cap and oldest-first eviction -/

/-- Unique keys make the entries themselves duplicate-free. -/
theorem nodupKeys_entries (c : ScreenshotCache) (h : nodupKeys c) : c.Nodup :=
  List.Nodup.of_map _ h

/-- The invariant `nodupKeys` is inherited by sublists. -/
theorem nodupKeys_of_sublist (c c' : ScreenshotCache) (hs : c' <+ c)
    (h : nodupKeys c) : nodupKeys c' :=
  (hs.map Prod.fst).nodup h

/-- With unique keys, deleting a present entry's key removes exactly that
entry: pushing it back is a permutation of the original cache. -/
theorem perm_cons_mapDelete : ∀ (c : ScreenshotCache) (s : Int × CacheEntry),
    nodupKeys c → s ∈ c → List.Perm (s :: mapDelete c s.1) c := by
  intro c
  induction c with
  | nil =>
    intro s _ hs
    cases hs
  | cons x xs ih =>
    intro s hk hs
    rw [nodupKeys, List.map_cons, List.nodup_cons] at hk
    rcases List.mem_cons.mp hs with rfl | hs'
    · rw [mapDelete, List.filter_cons]
      have hb : (s.1 != s.1) = false := by simp
      rw [hb]
      simp only [Bool.false_eq_true, if_false]
      have hxs : xs.filter (fun p => p.1 != s.1) = xs := by
        apply List.filter_eq_self.mpr
        intro p hp
        have hne : p.1 ≠ s.1 := fun hpe =>
          hk.1 (hpe ▸ List.mem_map_of_mem Prod.fst hp)
        simpa using hne
      rw [hxs]
    · have hx1 : x.1 ≠ s.1 := fun he =>
        hk.1 (he ▸ List.mem_map_of_mem Prod.fst hs')
      rw [mapDelete, List.filter_cons]
      have hb : (x.1 != s.1) = true := by simpa using hx1
      rw [hb]
      simp only [if_true]
      have ihx : List.Perm (s :: mapDelete xs s.1) xs := ih s hk.2 hs'
      exact (List.Perm.swap x s _).trans (ihx.cons x)

/-- Inserting into the timestamp-sorted list is a permutation of pushing. -/
theorem insertByTs_perm (e : Int × CacheEntry) (l : ScreenshotCache) :
    List.Perm (insertByTs e l) (e :: l) := by
  induction l with
  | nil => exact List.Perm.refl _
  | cons f rest ih =>
    rw [insertByTs]
    split
    · exact List.Perm.refl _
    · exact (ih.cons f).trans (List.Perm.swap e f rest)

/-- The timestamp sort permutes the cache. -/
theorem sortByTs_perm (c : ScreenshotCache) : List.Perm (sortByTs c) c := by
  induction c with
  | nil => exact List.Perm.refl _
  | cons e rest ih =>
    rw [sortByTs]
    exact (insertByTs_perm e (sortByTs rest)).trans (ih.cons e)

/-- Insertion preserves ascending timestamps. -/
theorem insertByTs_pairwise (e : Int × CacheEntry) (l : ScreenshotCache)
    (h : l.Pairwise (fun a b => a.2.timestamp ≤ b.2.timestamp)) :
    (insertByTs e l).Pairwise (fun a b => a.2.timestamp ≤ b.2.timestamp) := by
  induction l with
  | nil => simp [insertByTs]
  | cons f rest ih =>
    rw [List.pairwise_cons] at h
    rw [insertByTs]
    split
    · rename_i hle
      rw [List.pairwise_cons]
      refine ⟨?_, List.pairwise_cons.mpr h⟩
      intro b hb
      rcases List.mem_cons.mp hb with rfl | hb'
      · exact hle
      · exact le_trans hle (h.1 b hb')
    · rename_i hgt
      rw [List.pairwise_cons]
      refine ⟨?_, ih h.2⟩
      intro b hb
      have hb2 := (insertByTs_perm e rest).mem_iff.mp hb
      rcases List.mem_cons.mp hb2 with rfl | hb'
      · omega
      · exact h.1 b hb'

/-- The sorted entry array is ascending in timestamps. -/
theorem sortByTs_pairwise (c : ScreenshotCache) :
    (sortByTs c).Pairwise (fun a b => a.2.timestamp ≤ b.2.timestamp) := by
  induction c with
  | nil => simp [sortByTs]
  | cons e rest ih =>
    rw [sortByTs]
    exact insertByTs_pairwise e _ ih

/-- The eviction loop keeps a sublist, lands exactly on the cap, and only
ever removes entries whose timestamps are no larger than any survivor: the
globally oldest entries go first. -/
theorem pruneLoop_spec : ∀ (sorted c : ScreenshotCache), nodupKeys c →
    List.Perm sorted c →
    sorted.Pairwise (fun a b => a.2.timestamp ≤ b.2.timestamp) →
    pruneLoop c sorted <+ c ∧
    (pruneLoop c sorted).length = min c.length MAX_SCREENSHOT_CACHE_ITEMS ∧
    ∀ r ∈ c, r ∉ pruneLoop c sorted →
      ∀ q ∈ pruneLoop c sorted, r.2.timestamp ≤ q.2.timestamp := by
  intro sorted
  induction sorted with
  | nil =>
    intro c hk hp hs
    have hc : c = [] := List.Perm.eq_nil hp.symm
    subst hc
    exact ⟨List.Sublist.refl _, by simp [pruneLoop],
      fun r hr => absurd hr (List.not_mem_nil r)⟩
  | cons s rest ih =>
    intro c hk hp hs
    rw [pruneLoop]
    split
    · rename_i hgt
      have hsmem : s ∈ c := hp.subset (List.mem_cons_self s rest)
      have hpcons : List.Perm (s :: mapDelete c s.1) c :=
        perm_cons_mapDelete c s hk hsmem
      have hkc' : nodupKeys (mapDelete c s.1) :=
        nodupKeys_of_sublist _ _ (List.filter_sublist c) hk
      have hpc' : List.Perm rest (mapDelete c s.1) := by
        have h2 : List.Perm (s :: rest) (s :: mapDelete c s.1) :=
          hp.trans hpcons.symm
        exact h2.cons_inv
      have hps' := List.pairwise_cons.mp hs
      obtain ⟨ih1, ih2, ih3⟩ := ih (mapDelete c s.1) hkc' hpc' hps'.2
      have hlen : (mapDelete c s.1).length + 1 = c.length := by
        have hl := hpcons.length_eq
        simpa using hl
      refine ⟨ih1.trans (List.filter_sublist c), ?_, ?_⟩
      · rw [ih2]
        rw [MAX_SCREENSHOT_CACHE_ITEMS] at hgt ⊢
        omega
      · intro r hr hrn q hq
        by_cases hrc : r ∈ mapDelete c s.1
        · exact ih3 r hrc hrn q hq
        · have hr_eq : r = s := by
            have hrm : r ∈ s :: mapDelete c s.1 := hpcons.mem_iff.mpr hr
            rcases List.mem_cons.mp hrm with rfl | h
            · rfl
            · exact absurd h hrc
          have hq' : q ∈ mapDelete c s.1 := ih1.subset hq
          have hq2 : q ∈ rest := hpc'.mem_iff.mpr hq'
          rw [hr_eq]
          exact hps'.1 q hq2
    · rename_i hle
      refine ⟨List.Sublist.refl _, ?_, fun r hr hrn => absurd hr hrn⟩
      omega

/-- Function `pruneScreenshotCache` keeps a sublist, caps the size, and evicts
oldest-first. -/
theorem pruneScreenshotCache_spec (c : ScreenshotCache) (hk : nodupKeys c) :
    pruneScreenshotCache c <+ c ∧
    (pruneScreenshotCache c).length = min c.length MAX_SCREENSHOT_CACHE_ITEMS ∧
    ∀ r ∈ c, r ∉ pruneScreenshotCache c →
      ∀ q ∈ pruneScreenshotCache c, r.2.timestamp ≤ q.2.timestamp := by
  rw [pruneScreenshotCache]
  split
  · rename_i hle
    refine ⟨List.Sublist.refl _, ?_, fun r hr hrn => absurd hr hrn⟩
    omega
  · exact pruneLoop_spec (sortByTs c) c hk (sortByTs_perm c) (sortByTs_pairwise c)

/-- JS `Map.set` preserves the unique-key invariant. -/
theorem nodupKeys_mapSet (c : ScreenshotCache) (k : Int) (v : CacheEntry)
    (h : nodupKeys c) : nodupKeys (mapSet c k v) := by
  rw [mapSet]
  split
  · rename_i hany
    have hkeys : (c.map (fun p => if p.1 == k then (k, v) else p)).map Prod.fst =
        c.map Prod.fst := by
      rw [List.map_map]
      apply List.map_congr_left
      intro p hp
      by_cases hpk : (p.1 == k) = true
      · simp only [Function.comp_apply, hpk, if_true]
        exact (beq_iff_eq.mp hpk).symm
      · simp only [Function.comp_apply, hpk, Bool.false_eq_true, if_false]
    rw [nodupKeys, hkeys]
    exact h
  · rename_i hany
    have hnk : ∀ p ∈ c, p.1 ≠ k := by
      intro p hp he
      exact hany (List.any_eq_true.mpr ⟨p, hp, by simpa using he⟩)
    rw [nodupKeys, List.map_append]
    refine List.Nodup.append h (List.nodup_singleton k) ?_
    intro a ha hb
    obtain ⟨p, hp, hpa⟩ := List.mem_map.mp ha
    have hak : a = k := by simpa using hb
    exact hnk p hp (hpa.trans hak)

/-- With a fresh key, `Map.set` is an append. -/
theorem mapSet_of_fresh (c : ScreenshotCache) (k : Int) (v : CacheEntry)
    (h : ∀ p ∈ c, p.1 ≠ k) : mapSet c k v = c ++ [(k, v)] := by
  rw [mapSet]
  have hany : c.any (fun p => p.1 == k) = false := by
    rw [List.any_eq_false]
    intro p hp
    simpa using h p hp
  rw [hany]
  simp

/-- One `put` keeps a sublist of the updated map, caps the size, and
evicts oldest-first. -/
theorem setScreenshot_spec (cache : ScreenshotCache) (hk : nodupKeys cache)
    (k : Int) (d : String) (u : Option String) (now : Int) :
    setScreenshot cache k d u now <+ mapSet cache k ⟨d, now, u⟩ ∧
    (setScreenshot cache k d u now).length =
      min (mapSet cache k ⟨d, now, u⟩).length MAX_SCREENSHOT_CACHE_ITEMS ∧
    ∀ r ∈ mapSet cache k ⟨d, now, u⟩, r ∉ setScreenshot cache k d u now →
      ∀ q ∈ setScreenshot cache k d u now, r.2.timestamp ≤ q.2.timestamp :=
  pruneScreenshotCache_spec (mapSet cache k ⟨d, now, u⟩)
    (nodupKeys_mapSet cache k ⟨d, now, u⟩ hk)

/-- Any sequence of puts preserves the key invariant and the cap. -/
theorem applyPuts_inv (puts : List PutOp) : ∀ (c : ScreenshotCache),
    nodupKeys c → c.length ≤ MAX_SCREENSHOT_CACHE_ITEMS →
    nodupKeys (applyPuts c puts) ∧
    (applyPuts c puts).length ≤ MAX_SCREENSHOT_CACHE_ITEMS := by
  induction puts with
  | nil => exact fun c hk hl => ⟨hk, hl⟩
  | cons p rest ih =>
    intro c hk hl
    have hs := setScreenshot_spec c hk p.tabId p.dataUrl p.url p.now
    have hk' : nodupKeys (setScreenshot c p.tabId p.dataUrl p.url p.now) :=
      nodupKeys_of_sublist _ _ hs.1 (nodupKeys_mapSet _ _ _ hk)
    have hl' : (setScreenshot c p.tabId p.dataUrl p.url p.now).length ≤
        MAX_SCREENSHOT_CACHE_ITEMS := by
      have h2 := hs.2.1
      omega
    exact ih _ hk' hl'

/-- A strict sublist misses some entry of a duplicate-free list. -/
theorem sublist_missing_mem {α : Type} {s c : List α} (_hs : s <+ c)
    (hlen : s.length < c.length) (hnd : c.Nodup) : ∃ p ∈ c, p ∉ s := by
  by_contra h
  push_neg at h
  have hsub : c ⊆ s := fun a ha => h a ha
  have hle := (hnd.subperm hsub).length_le
  omega

/-- A sublist one element short keeps every entry other than a missing
one. -/
theorem sublist_one_removed {α : Type} : ∀ {s c : List α}, s <+ c →
    s.length + 1 = c.length → ∀ p ∈ c, p ∉ s → ∀ q ∈ c, q ≠ p → q ∈ s := by
  intro s c hs
  induction hs with
  | slnil =>
    intro h
    simp at h
  | cons a hsub ih =>
    rename_i l₁ l₂
    intro hlen p hp hpn q hq hqp
    have heq : l₁ = l₂ := List.Sublist.eq_of_length hsub
      (by simp only [List.length_cons] at hlen; omega)
    subst heq
    rcases List.mem_cons.mp hp with rfl | hp'
    · rcases List.mem_cons.mp hq with rfl | hq'
      · exact absurd rfl hqp
      · exact hq'
    · exact absurd hp' hpn
  | cons₂ a hsub ih =>
    rename_i l₁ l₂
    intro hlen p hp hpn q hq hqp
    have hpa : p ≠ a := fun he => hpn (he ▸ List.mem_cons_self a l₁)
    have hp' : p ∈ l₂ := by
      rcases List.mem_cons.mp hp with rfl | h
      · exact absurd rfl hpa
      · exact h
    have hpn' : p ∉ l₁ := fun h => hpn (List.mem_cons_of_mem a h)
    rcases List.mem_cons.mp hq with rfl | hq'
    · exact List.mem_cons_self _ _
    · exact List.mem_cons_of_mem a
        (ih (by simp only [List.length_cons] at hlen; omega) p hp' hpn' q hq' hqp)

/-- Claim C3: starting within the cap, any sequence of puts keeps the
cache at 25 entries or fewer; each put's eviction retains an
insertion-ordered sublist of the updated map, lands on `min size 25`, and
removes only globally oldest-timestamped entries; in particular a put of a
fresh key into a full 25-entry cache (with the new capture strictly newer
than some resident entry) evicts exactly one entry, one carrying the
smallest timestamp among the original 25, leaving 25 entries. -/
theorem claim_C3_cache_eviction (cache : ScreenshotCache)
    (hkeys : nodupKeys cache)
    (hlen : cache.length ≤ MAX_SCREENSHOT_CACHE_ITEMS) :
    (∀ puts : List PutOp,
      (applyPuts cache puts).length ≤ MAX_SCREENSHOT_CACHE_ITEMS) ∧
    (∀ (k : Int) (d : String) (u : Option String) (now : Int),
      setScreenshot cache k d u now <+ mapSet cache k ⟨d, now, u⟩ ∧
      (setScreenshot cache k d u now).length =
        min (mapSet cache k ⟨d, now, u⟩).length MAX_SCREENSHOT_CACHE_ITEMS ∧
      (∀ r ∈ mapSet cache k ⟨d, now, u⟩, r ∉ setScreenshot cache k d u now →
        ∀ q ∈ setScreenshot cache k d u now, r.2.timestamp ≤ q.2.timestamp)) ∧
    (∀ (k : Int) (d : String) (u : Option String) (now : Int),
      cache.length = 25 → (∀ p ∈ cache, p.1 ≠ k) →
      (∃ p ∈ cache, p.2.timestamp < now) →
      ∃ p ∈ cache,
        (∀ q ∈ cache, p.2.timestamp ≤ q.2.timestamp) ∧
        p ∉ setScreenshot cache k d u now ∧
        (∀ q ∈ mapSet cache k ⟨d, now, u⟩, q ≠ p →
          q ∈ setScreenshot cache k d u now) ∧
        (setScreenshot cache k d u now).length = 25) := by
  refine ⟨fun puts => (applyPuts_inv puts cache hkeys hlen).2,
    fun k d u now => setScreenshot_spec cache hkeys k d u now, ?_⟩
  intro k d u now h25 hfresh hex
  obtain ⟨p0, hp0, hp0t⟩ := hex
  have hset : mapSet cache k ⟨d, now, u⟩ = cache ++ [(k, ⟨d, now, u⟩)] :=
    mapSet_of_fresh cache k ⟨d, now, u⟩ hfresh
  have hk' : nodupKeys (mapSet cache k ⟨d, now, u⟩) :=
    nodupKeys_mapSet cache k ⟨d, now, u⟩ hkeys
  obtain ⟨hsub, hmin, hminty⟩ := setScreenshot_spec cache hkeys k d u now
  have hlenc : (mapSet cache k ⟨d, now, u⟩).length = 26 := by
    rw [hset]
    simp [h25]
  have hlenr : (setScreenshot cache k d u now).length = 25 := by
    rw [hmin, hlenc]
    rfl
  have hnd : (mapSet cache k ⟨d, now, u⟩).Nodup := nodupKeys_entries _ hk'
  obtain ⟨p, hpmem, hpnot⟩ := sublist_missing_mem hsub (by omega) hnd
  have hone := sublist_one_removed hsub (by omega) p hpmem hpnot
  have hpmin : ∀ q ∈ setScreenshot cache k d u now,
      p.2.timestamp ≤ q.2.timestamp := hminty p hpmem hpnot
  have hpc : p ∈ cache := by
    have hm2 : p ∈ cache ++ [(k, ⟨d, now, u⟩)] := hset ▸ hpmem
    rcases List.mem_append.mp hm2 with h | h
    · exact h
    · exfalso
      have hpe : p = (k, ⟨d, now, u⟩) := by simpa using h
      have hp0m : p0 ∈ mapSet cache k ⟨d, now, u⟩ := by
        rw [hset]
        exact List.mem_append_left _ hp0
      have hp0ne : p0 ≠ p := by
        intro he
        exact hfresh p0 hp0 (by rw [he, hpe])
      have hp0r := hone p0 hp0m hp0ne
      have hple := hpmin p0 hp0r
      rw [hpe] at hple
      simp only at hple
      omega
  refine ⟨p, hpc, ?_, hpnot, fun q hq hqp => hone q hq hqp, hlenr⟩
  intro q hq
  by_cases hqp : q = p
  · rw [hqp]
  · have hqm : q ∈ mapSet cache k ⟨d, now, u⟩ := by
      rw [hset]
      exact List.mem_append_left _ hq
    exact hpmin q (hone q hqm hqp)

/-- The cache used to witness C3. -/
def cacheW3 : ScreenshotCache :=
  [(1, ⟨"imgA", 5, none⟩), (2, ⟨"imgB", 3, some "https://a.example"⟩)]

theorem claim_C3_witness :
    (nodupKeys cacheW3 ∧ cacheW3.length ≤ MAX_SCREENSHOT_CACHE_ITEMS) ∧
    (∀ puts : List PutOp,
      (applyPuts cacheW3 puts).length ≤ MAX_SCREENSHOT_CACHE_ITEMS) :=
  ⟨⟨by unfold nodupKeys; decide, by decide⟩,
   (claim_C3_cache_eviction cacheW3 (by unfold nodupKeys; decide) (by decide)).1⟩

end TabSwitcher
